import Mathlib

/-!
# Verification of `LoopingAudioSource` (dRowAudio)

A shallow embedding of `src/dRowAudio/audio/dRowAudio_LoopingAudioSource.cpp`.

The C++ class decorates an inner `PositionableAudioSource` with an optional
loop region.  We model the inner source abstractly as a state type `σ`
together with the three operations the looping wrapper uses
(`getNextAudioBlock`, `setNextReadPosition`, `getNextReadPosition`), model
audio buffers as `List Int` (one channel; the C++ code treats every channel
identically, copying the same sample ranges per channel), model `int64`
arithmetic as `Int` (the quantities involved are far from 2^63, and the C++
`%` on `int64` is truncated division, embedded as `Int.tmod`), and model the
`double` seconds-to-samples conversion `(int64)(time * sampleRate)` as exact
rational multiplication followed by truncation toward zero.

Locking (`ScopedLock`) serialises access but has no effect on the
single-threaded functional semantics, so it is not represented.  `jassert`
is a debug-build-only check that does not alter data flow in release builds;
the embedding follows the release semantics (the assert is noted in doc
comments where it occurs in the source).
-/

set_option maxRecDepth 100000

/-- Truncation of a rational toward zero: the embedding of the C++
`double → int64` conversion used in `setLoopTimes`
(`loopStartSample = startTime * currentSampleRate`). -/
def truncToInt (q : ℚ) : Int :=
  q.num.tdiv (q.den : Int)

/-- Overwrite `data.length` entries of `buf` starting at offset `off`.
Models a write into an `AudioSampleBuffer` at a given start sample
(`tempInfo.startSample = off; input->getNextAudioBlock (tempInfo)`). -/
def writeAt (buf : List Int) (off : Nat) (data : List Int) : List Int :=
  buf.take off ++ data ++ buf.drop (off + data.length)

/-- The interface of the wrapped `PositionableAudioSource`, as used by
`LoopingAudioSource`: pull a block of samples (returning the samples written
and the successor state), set the read cursor, and get the read cursor. -/
structure InnerSource (σ : Type) where
  read : σ → Int → List Int × σ
  setPos : σ → Int → σ
  getPos : σ → Int

/-- An inner source that "emits its sample index as the sample value": a
plain ramp.  Its state is its read cursor; reading `n` samples at cursor `c`
yields `c, c+1, …, c+n-1` and advances the cursor by `n`. -/
def rampSource : InnerSource Int where
  read := fun c n => ((List.range n.toNat).map (fun (i : Nat) => c + (i : Int)), c + n.toNat)
  setPos := fun _ p => p
  getPos := fun c => c

/-- The fields of `LoopingAudioSource`, parametrised by the inner source's
state type `σ` (the `input` member).  `tempBuffer` holds one channel of the
scratch buffer; its length is the buffer's sample capacity. -/
structure LoopState (σ : Type) where
  isLoopingBetweenTimes : Bool
  loopStartTime : ℚ
  loopEndTime : ℚ
  loopStartSample : Int
  loopEndSample : Int
  currentSampleRate : ℚ
  tempBuffer : List Int
  input : σ

namespace LoopingAudioSource

/-- `LoopingAudioSource::getNextReadPosition`: pure forwarding to the inner
source (line 160-163 of the source). -/
def getNextReadPosition {σ : Type} (src : InnerSource σ) (st : LoopState σ) : Int :=
  src.getPos st.input

/-- `LoopingAudioSource::setNextReadPosition` (lines 141-158).  If looping is
enabled and the current inner cursor is strictly inside the loop region, a
`newPosition` above `loopEndSample` (resp. below `loopStartSample`) is wrapped
using `%` (C++ truncated remainder) relative to the loop length; otherwise
`newPosition` is forwarded unchanged. -/
def setNextReadPosition {σ : Type} (src : InnerSource σ) (st : LoopState σ)
    (newPosition : Int) : LoopState σ :=
  let pos := src.getPos st.input
  let np :=
    if st.isLoopingBetweenTimes ∧ st.loopStartSample < pos ∧ pos < st.loopEndSample then
      let numLoopSamples := st.loopEndSample - st.loopStartSample
      if st.loopEndSample < newPosition then
        st.loopStartSample + (newPosition - st.loopEndSample).tmod numLoopSamples
      else if newPosition < st.loopStartSample then
        st.loopEndSample - (st.loopStartSample - newPosition).tmod numLoopSamples
      else
        newPosition
    else
      newPosition
  { st with input := src.setPos st.input np }

/-- `LoopingAudioSource::setLoopTimes` (lines 49-65).  Stores the times,
recomputes the sample bounds (truncating `time * sampleRate`), then calls
`setNextReadPosition (getNextReadPosition())`.  The source guards the entry
with `jassert (endTime > startTime)`, a debug-only check with no effect on
the stored state; the embedding follows the release data flow. -/
def setLoopTimes {σ : Type} (src : InnerSource σ) (st : LoopState σ)
    (startTime endTime : ℚ) : LoopState σ :=
  let st1 : LoopState σ :=
    { st with
      loopStartTime := startTime
      loopEndTime := endTime
      loopStartSample := truncToInt (startTime * st.currentSampleRate)
      loopEndSample := truncToInt (endTime * st.currentSampleRate) }
  setNextReadPosition src st1 (src.getPos st1.input)

/-- `LoopingAudioSource::prepareToPlay` (lines 78-89): record the sample
rate and grow the scratch buffer only when the expected block size exceeds
the current number of samples (JUCE `setSize` reallocates; fresh contents
are modelled as zeros). -/
def prepareToPlay {σ : Type} (st : LoopState σ) (samplesPerBlockExpected : Int)
    (sampleRate : ℚ) : LoopState σ :=
  let st1 : LoopState σ := { st with currentSampleRate := sampleRate }
  if (st1.tempBuffer.length : Int) < samplesPerBlockExpected then
    { st1 with tempBuffer := List.replicate samplesPerBlockExpected.toNat 0 }
  else
    st1

/-- Line 105 of the source: `newEnd = loopStartSample + ((newStart +
info.numSamples) % loopEndSample)`, with `%` the C++ truncated remainder. -/
def loopNewEnd (loopStartSample loopEndSample newStart numSamples : Int) : Int :=
  loopStartSample + (newStart + numSamples).tmod loopEndSample

/-- Line 113: `numEndSamps = loopEndSample - newStart`, the length of the
first sub-read of the boundary-crossing branch. -/
def numEndSamps (loopEndSample newStart : Int) : Int :=
  loopEndSample - newStart

/-- Line 114: `numStartSamps = newEnd - loopStartSample`, the length of the
second sub-read of the boundary-crossing branch. -/
def numStartSamps (loopStartSample loopEndSample newStart numSamples : Int) : Int :=
  loopNewEnd loopStartSample loopEndSample newStart numSamples - loopStartSample

/-- `LoopingAudioSource::getNextAudioBlock` (lines 96-138).  Returns the
samples written into the caller's buffer together with the successor state.
With looping disabled (or a non-positive request) the call forwards to the
inner source; with looping enabled the block is either forwarded whole
(`newEnd > newStart`) or split at the loop boundary into two inner reads
assembled in the scratch buffer, whose first `numSamples` entries are then
copied out per channel. -/
def getNextAudioBlock {σ : Type} (src : InnerSource σ) (st : LoopState σ)
    (numSamples : Int) : List Int × LoopState σ :=
  if 0 < numSamples then
    if st.isLoopingBetweenTimes then
      let newStart := src.getPos st.input
      let newEnd := loopNewEnd st.loopStartSample st.loopEndSample newStart numSamples
      if newStart < newEnd then
        let r := src.read st.input numSamples
        (r.1, { st with input := r.2 })
      else
        let nEnd := numEndSamps st.loopEndSample newStart
        let nStart := numStartSamps st.loopStartSample st.loopEndSample newStart numSamples
        let r1 := src.read st.input nEnd
        let buf1 := writeAt st.tempBuffer 0 r1.1
        let i2 := src.setPos r1.2 st.loopStartSample
        let r2 := src.read i2 nStart
        let buf2 := writeAt buf1 nEnd.toNat r2.1
        (buf2.take numSamples.toNat, { st with input := r2.2, tempBuffer := buf2 })
    else
      let r := src.read st.input numSamples
      (r.1, { st with input := r.2 })
  else
    ([], st)

/-- Concatenation of successive `getNextAudioBlock` calls with the given
block sizes: the "successive produceBlock outputs" of the spec. -/
def produceMany {σ : Type} (src : InnerSource σ) (ns : List Int)
    (st : LoopState σ) : List Int × LoopState σ :=
  match ns with
  | [] => ([], st)
  | n :: rest =>
      let r := getNextAudioBlock src st n
      let r2 := produceMany src rest r.2
      (r.1 ++ r2.1, r2.2)

/-- A sequence of `prepareToPlay` calls (block size, sample rate). -/
def prepareMany {σ : Type} (calls : List (Int × ℚ)) (st : LoopState σ) :
    LoopState σ :=
  calls.foldl (fun s c => prepareToPlay s c.1 c.2) st

end LoopingAudioSource

/-- The spec's gapless-seam adjacency: in the concatenated output, each
sample is followed by its successor, except that `endSample - 1` is followed
directly by `startSample`. -/
def seamAdj (loopStartSample loopEndSample : Int) (a b : Int) : Prop :=
  (a = loopEndSample - 1 ∧ b = loopStartSample) ∨
  (a ≠ loopEndSample - 1 ∧ b = a + 1)

instance (ls le a b : Int) : Decidable (seamAdj ls le a b) :=
  inferInstanceAs
    (Decidable ((a = le - 1 ∧ b = ls) ∨ (a ≠ le - 1 ∧ b = a + 1)))

/-- The mathematically ideal looped ramp: `n` samples starting at cursor
`c`, confined to `[loopStartSample, loopEndSample)` by Euclidean wrap. -/
def idealBlock (ls le c : Int) (n : Nat) : List Int :=
  (List.range n).map (fun (i : Nat) => ls + (c - ls + (i : Int)) % (le - ls))

/-- The wrapped cursor position corresponding to `idealBlock`. -/
def wrapPos (ls le c : Int) : Int :=
  ls + (c - ls) % (le - ls)

/-! ## Concrete states used in the scenario theorems -/

/-- A looping state over the ramp source with the given sample bounds,
cursor and scratch capacity (times and rate are irrelevant to the produce
path and set to dummy values). -/
def mkRampLoopState (ls le cursor : Int) (cap : Nat) : LoopState Int :=
  { isLoopingBetweenTimes := true, loopStartTime := 0, loopEndTime := 0,
    loopStartSample := ls, loopEndSample := le, currentSampleRate := 1,
    tempBuffer := List.replicate cap 0, input := cursor }

/-- Before the spec scenario: rate 44100, cursor at sample 881500, no
region installed yet. -/
def c2Base : LoopState Int :=
  { isLoopingBetweenTimes := true, loopStartTime := 0, loopEndTime := 0,
    loopStartSample := 0, loopEndSample := 0, currentSampleRate := 44100,
    tempBuffer := List.replicate 1024 0, input := 881500 }

/-- The spec scenario state: loop region seconds 10–20 at rate 44100,
hence samples 441000–882000, cursor at 881500. -/
def c2State : LoopState Int :=
  { isLoopingBetweenTimes := true, loopStartTime := 10, loopEndTime := 20,
    loopStartSample := 441000, loopEndSample := 882000, currentSampleRate := 44100,
    tempBuffer := List.replicate 1024 0, input := 881500 }

/-- A looping state with region samples `[0, 10)` at rate 1, cursor at 8. -/
def c3State : LoopState Int :=
  { isLoopingBetweenTimes := true, loopStartTime := 0, loopEndTime := 10,
    loopStartSample := 0, loopEndSample := 10, currentSampleRate := 1,
    tempBuffer := List.replicate 4 0, input := 8 }

/-- A looping state with region samples `[10, 20)`, cursor strictly inside
at 15. -/
def c5State : LoopState Int :=
  { isLoopingBetweenTimes := true, loopStartTime := 0, loopEndTime := 0,
    loopStartSample := 10, loopEndSample := 20, currentSampleRate := 1,
    tempBuffer := [], input := 15 }

/-- A non-looping state (with a region installed) for the pass-through
scenario. -/
def c7State : LoopState Int :=
  { isLoopingBetweenTimes := false, loopStartTime := 1, loopEndTime := 2,
    loopStartSample := 3, loopEndSample := 6, currentSampleRate := 1,
    tempBuffer := List.replicate 4 0, input := 5 }

/-! ## Helper lemmas -/

/-- Truncation toward zero is the ceiling of negatives and the floor of
nonnegatives. -/
theorem truncToInt_eq (q : ℚ) : truncToInt q = if q < 0 then ⌈q⌉ else ⌊q⌋ := by
  unfold truncToInt
  by_cases hq : q < 0
  · rw [if_pos hq]
    have hnn : ¬ (0 ≤ q.num) := fun h => absurd (Rat.num_nonneg.mp h) (not_le.mpr hq)
    have h1 : q.num.tdiv (q.den : Int) = -((-q.num).tdiv (q.den : Int)) := by
      rw [Int.neg_tdiv, neg_neg]
    have h2 : ⌊-q⌋ = (-q.num) / (q.den : Int) := by
      rw [Rat.floor_def, Rat.neg_num, Rat.neg_den]
    have h3 : ⌈q⌉ = -⌊-q⌋ := by rw [Int.floor_neg, neg_neg]
    rw [h1, Int.tdiv_eq_ediv (by omega) (by positivity), h3, h2]
  · rw [if_neg hq]
    have hnum : 0 ≤ q.num := Rat.num_nonneg.mpr (not_lt.mp hq)
    rw [Int.tdiv_eq_ediv hnum (by positivity), Rat.floor_def]

theorem truncToInt_mono {x y : ℚ} (h : x ≤ y) : truncToInt x ≤ truncToInt y := by
  rw [truncToInt_eq, truncToInt_eq]
  by_cases hx : x < 0 <;> by_cases hy : y < 0 <;> simp only [hx, hy, if_true, if_false]
  · exact Int.ceil_mono h
  · have h1 : ⌈x⌉ ≤ ⌈(0 : ℚ)⌉ := Int.ceil_mono (le_of_lt hx)
    have h2 : (0 : Int) ≤ ⌊y⌋ := Int.floor_nonneg.mpr (not_lt.mp hy)
    simp only [Int.ceil_zero] at h1
    omega
  · exact absurd (lt_of_le_of_lt h hy) hx
  · exact Int.floor_mono h

/-- `wrapPos` lands in the loop region. -/
theorem wrapPos_mem (ls le c : Int) (h : ls < le) :
    ls ≤ wrapPos ls le c ∧ wrapPos ls le c < le := by
  unfold wrapPos
  have h1 : (0 : Int) ≤ (c - ls) % (le - ls) := Int.emod_nonneg _ (by omega)
  have h2 : (c - ls) % (le - ls) < le - ls := Int.emod_lt_of_pos _ (by omega)
  omega

/-- A ramp `idealBlock` that stays below the loop end is a plain ramp. -/
theorem idealBlock_eq_ramp (ls le c : Int) (n : Nat)
    (h0 : ls ≤ c) (h1 : c + (n : Int) ≤ le) :
    idealBlock ls le c n = (List.range n).map (fun (i : Nat) => c + (i : Int)) := by
  unfold idealBlock
  refine List.map_congr_left (fun i hi => ?_)
  have hi' : (i : Int) < (n : Int) := by exact_mod_cast List.mem_range.mp hi
  have hmod : (c - ls + (i : Int)) % (le - ls) = c - ls + (i : Int) :=
    Int.emod_eq_of_lt (by omega) (by omega)
  rw [hmod]; omega

/-- Shifting the `idealBlock` cursor by a multiple-free wrap does not change
the emitted values: the block starting at the wrapped cursor agrees with the
tail of a longer block. -/
theorem idealBlock_split (ls le c : Int) (a b : Nat) :
    idealBlock ls le c (a + b) =
      idealBlock ls le c a ++ idealBlock ls le (wrapPos ls le (c + (a : Int))) b := by
  unfold idealBlock wrapPos
  rw [List.range_add, List.map_append, List.map_map]
  congr 1
  refine List.map_congr_left (fun j hj => ?_)
  simp only [Function.comp_apply]
  congr 1
  have h2 : ls + (c + (a : Int) - ls) % (le - ls) - ls + (j : Int)
      = (c + (a : Int) - ls) % (le - ls) + (j : Int) := by ring
  rw [h2, Int.emod_add_emod]
  congr 1
  push_cast
  ring

/-- Adjacent samples of an `idealBlock` satisfy the gapless-seam relation. -/
theorem idealBlock_chain (ls le c : Int) (h : ls < le) (n : Nat) :
    List.Chain' (seamAdj ls le) (idealBlock ls le c n) := by
  rw [List.chain'_iff_get]
  intro i hi
  unfold idealBlock
  rw [List.get_eq_getElem, List.get_eq_getElem]
  simp only [List.getElem_map, List.getElem_range]
  push_cast
  have hpos : (0 : Int) < le - ls := by omega
  have h0 : (0 : Int) ≤ (c - ls + (i : Int)) % (le - ls) := Int.emod_nonneg _ (by omega)
  have h1 : (c - ls + (i : Int)) % (le - ls) < le - ls := Int.emod_lt_of_pos _ hpos
  have hsucc : (c - ls + ((i : Int) + 1)) % (le - ls)
      = ((c - ls + (i : Int)) % (le - ls) + 1) % (le - ls) := by
    rw [Int.emod_add_emod]
    congr 1
    ring
  by_cases hlast : (c - ls + (i : Int)) % (le - ls) = le - ls - 1
  · left
    refine ⟨by omega, ?_⟩
    rw [hsucc, hlast]
    have : le - ls - 1 + 1 = le - ls := by ring
    rw [this, Int.emod_self]
    ring
  · right
    refine ⟨by omega, ?_⟩
    rw [hsucc, Int.emod_eq_of_lt (by omega) (by omega)]
    ring

namespace LoopingAudioSource

theorem writeAt_zero (buf d : List Int) :
    writeAt buf 0 d = d ++ buf.drop d.length := by
  unfold writeAt
  simp

/-- Writing `d1` at offset 0 and `d2` right after it, then taking their
combined length, recovers `d1 ++ d2` whatever the buffer contents. -/
theorem writeAt_writeAt_take (buf d1 d2 : List Int) (off nn : Nat)
    (hoff : off = d1.length) (hnn : nn = d1.length + d2.length) :
    (writeAt (writeAt buf 0 d1) off d2).take nn = d1 ++ d2 := by
  subst hoff hnn
  rw [writeAt_zero]
  unfold writeAt
  rw [List.take_left]
  rw [List.take_append_eq_append_take]
  rw [List.take_append_eq_append_take]
  rw [List.take_of_length_le (by omega)]
  rw [Nat.add_sub_cancel_left, List.take_length]
  rw [List.length_append, Nat.sub_self, List.take_zero, List.append_nil]

/-- Two plain ramps, the first ending exactly at the loop end and the second
starting at the loop start, assemble to one ideal wrapped block. -/
theorem ramp_append_eq_ideal (ls le c : Int) (aN bN : Nat)
    (h1 : ls ≤ c)
    (haN : (aN : Int) = le - c) (hbN : (bN : Int) ≤ c - ls) :
    (List.range aN).map (fun (i : Nat) => c + (i : Int))
      ++ (List.range bN).map (fun (i : Nat) => ls + (i : Int))
      = idealBlock ls le c (aN + bN) := by
  rw [idealBlock_split]
  congr 1
  · rw [idealBlock_eq_ramp _ _ _ _ h1 (by omega)]
  · have hwa : wrapPos ls le (c + (aN : Int)) = ls := by
      unfold wrapPos
      have hsub : c + (aN : Int) - ls = le - ls := by omega
      rw [hsub, Int.emod_self]
      ring
    rw [hwa, idealBlock_eq_ramp _ _ _ _ le_rfl (by omega)]

/-- The non-crossing branch of `getNextAudioBlock` on the ramp source, as an
equation (guard conditions supplied as hypotheses). -/
theorem gnab_ramp_direct (st : LoopState Int) (n : Int)
    (hloop : st.isLoopingBetweenTimes = true) (hn : 0 < n)
    (hbr : st.input < loopNewEnd st.loopStartSample st.loopEndSample st.input n) :
    getNextAudioBlock rampSource st n
      = ((List.range n.toNat).map (fun (i : Nat) => st.input + (i : Int)),
         { st with input := st.input + (n.toNat : Int) }) := by
  unfold getNextAudioBlock
  rw [if_pos hn]
  simp only [hloop, if_true, rampSource]
  rw [if_pos hbr]

/-- The boundary-crossing branch of `getNextAudioBlock` on the ramp source,
as an equation. -/
theorem gnab_ramp_wrap (st : LoopState Int) (n : Int)
    (hloop : st.isLoopingBetweenTimes = true) (hn : 0 < n)
    (hbr : ¬ st.input < loopNewEnd st.loopStartSample st.loopEndSample st.input n) :
    getNextAudioBlock rampSource st n
      = (let nEnd := numEndSamps st.loopEndSample st.input
         let nStart := numStartSamps st.loopStartSample st.loopEndSample st.input n
         let out1 := (List.range nEnd.toNat).map (fun (i : Nat) => st.input + (i : Int))
         let out2 := (List.range nStart.toNat).map
            (fun (i : Nat) => st.loopStartSample + (i : Int))
         let buf2 := writeAt (writeAt st.tempBuffer 0 out1) nEnd.toNat out2
         (buf2.take n.toNat,
          { st with input := st.loopStartSample + (nStart.toNat : Int), tempBuffer := buf2 })) := by
  unfold getNextAudioBlock
  rw [if_pos hn]
  simp only [hloop, if_true, rampSource]
  rw [if_neg hbr]

/-- One looping `getNextAudioBlock` call on the ramp source, for a valid
region, a cursor inside the region and a block of at most the loop length:
the output is the ideal wrapped ramp, the inner cursor ends at the wrapped
position, and the loop fields are untouched. -/
theorem getNextAudioBlock_ramp_spec (st : LoopState Int) (n : Int)
    (hloop : st.isLoopingBetweenTimes = true)
    (h0 : 0 ≤ st.loopStartSample)
    (hlt : st.loopStartSample < st.loopEndSample)
    (hc1 : st.loopStartSample ≤ st.input)
    (hc2 : st.input < st.loopEndSample)
    (hn : 0 < n)
    (hnle : n ≤ st.loopEndSample - st.loopStartSample) :
    (getNextAudioBlock rampSource st n).1
        = idealBlock st.loopStartSample st.loopEndSample st.input n.toNat ∧
      (getNextAudioBlock rampSource st n).2.input
        = wrapPos st.loopStartSample st.loopEndSample (st.input + n) ∧
      (getNextAudioBlock rampSource st n).2.isLoopingBetweenTimes = true ∧
      (getNextAudioBlock rampSource st n).2.loopStartSample = st.loopStartSample ∧
      (getNextAudioBlock rampSource st n).2.loopEndSample = st.loopEndSample := by
  have htm : (st.input + n).tmod st.loopEndSample = (st.input + n) % st.loopEndSample :=
    Int.tmod_eq_emod (by omega) (by omega)
  by_cases hcross : st.input + n < st.loopEndSample
  · have hmod : (st.input + n) % st.loopEndSample = st.input + n :=
      Int.emod_eq_of_lt (by omega) hcross
    have hbr : st.input < loopNewEnd st.loopStartSample st.loopEndSample st.input n := by
      unfold loopNewEnd
      rw [htm, hmod]
      omega
    rw [gnab_ramp_direct st n hloop hn hbr]
    refine ⟨?_, ?_, hloop, rfl, rfl⟩
    · rw [idealBlock_eq_ramp _ _ _ _ hc1 (by omega)]
    · show st.input + (n.toNat : Int) = _
      unfold wrapPos
      rw [Int.emod_eq_of_lt (by omega) (by omega)]
      omega
  · have hmod : (st.input + n) % st.loopEndSample = st.input + n - st.loopEndSample := by
      rw [← Int.emod_sub_cancel]
      exact Int.emod_eq_of_lt (by omega) (by omega)
    have hbr : ¬ st.input < loopNewEnd st.loopStartSample st.loopEndSample st.input n := by
      unfold loopNewEnd
      rw [htm, hmod]
      omega
    rw [gnab_ramp_wrap st n hloop hn hbr]
    have hNE : numEndSamps st.loopEndSample st.input = st.loopEndSample - st.input := rfl
    have hNS : numStartSamps st.loopStartSample st.loopEndSample st.input n
        = st.input + n - st.loopEndSample := by
      unfold numStartSamps loopNewEnd
      rw [htm, hmod]
      ring
    have hwrap : wrapPos st.loopStartSample st.loopEndSample (st.input + n)
        = st.loopStartSample + (st.input + n - st.loopEndSample) := by
      unfold wrapPos
      have harg : st.input + n - st.loopStartSample
          - (st.loopEndSample - st.loopStartSample) = st.input + n - st.loopEndSample := by
        ring
      rw [← Int.emod_sub_cancel, harg, Int.emod_eq_of_lt (by omega) (by omega)]
    refine ⟨?_, ?_, hloop, rfl, rfl⟩
    · dsimp only
      rw [hNE, hNS]
      rw [writeAt_writeAt_take st.tempBuffer _ _ _ _ (by simp)
        (by simp only [List.length_map, List.length_range]; omega)]
      have hab : n.toNat
          = (st.loopEndSample - st.input).toNat + (st.input + n - st.loopEndSample).toNat := by
        omega
      rw [hab]
      exact ramp_append_eq_ideal _ _ _ _ _ hc1 (by omega) (by omega)
    · dsimp only
      rw [hNS, hwrap]
      omega

end LoopingAudioSource

namespace LoopingAudioSource

/-- Concatenating successive looping reads on the ramp source produces one
long ideal wrapped ramp, provided every block is positive and at most the
loop length. -/
theorem produceMany_ramp_spec (ns : List Int) :
    ∀ (st : LoopState Int),
      st.isLoopingBetweenTimes = true →
      0 ≤ st.loopStartSample →
      st.loopStartSample < st.loopEndSample →
      st.loopStartSample ≤ st.input →
      st.input < st.loopEndSample →
      (∀ n ∈ ns, 0 < n ∧ n ≤ st.loopEndSample - st.loopStartSample) →
      (produceMany rampSource ns st).1
        = idealBlock st.loopStartSample st.loopEndSample st.input (ns.map Int.toNat).sum := by
  induction ns with
  | nil =>
    intro st _ _ _ _ _ _
    simp [produceMany, idealBlock]
  | cons n rest ih =>
    intro st hloop h0 hlt hc1 hc2 hns
    obtain ⟨hn, hnle⟩ := hns n (List.mem_cons_self n rest)
    obtain ⟨ho, hcur, hl2, hs2, he2⟩ :=
      getNextAudioBlock_ramp_spec st n hloop h0 hlt hc1 hc2 hn hnle
    have hmem := wrapPos_mem st.loopStartSample st.loopEndSample (st.input + n) hlt
    have hrec := ih (getNextAudioBlock rampSource st n).2 hl2
      (by rw [hs2]; exact h0)
      (by rw [hs2, he2]; exact hlt)
      (by rw [hs2, hcur]; exact hmem.1)
      (by rw [he2, hcur]; exact hmem.2)
      (by intro m hm; rw [hs2, he2]; exact hns m (List.mem_cons_of_mem _ hm))
    show (getNextAudioBlock rampSource st n).1
        ++ (produceMany rampSource rest (getNextAudioBlock rampSource st n).2).1 = _
    rw [ho, hrec, hcur, hs2, he2, List.map_cons, List.sum_cons]
    rw [idealBlock_split]
    have hcast : ((n.toNat : Int)) = n := Int.toNat_of_nonneg (le_of_lt hn)
    rw [hcast]

end LoopingAudioSource

namespace LoopingAudioSource

/-- `0 ≤ x.tmod m < m` for a nonnegative dividend and positive divisor. -/
theorem tmod_bounds {x m : Int} (hx : 0 ≤ x) (hm : 0 < m) :
    0 ≤ x.tmod m ∧ x.tmod m < m := by
  rw [Int.tmod_eq_emod hx (le_of_lt hm)]
  exact ⟨Int.emod_nonneg _ (by omega), Int.emod_lt_of_pos _ hm⟩

/-- `setLoopTimes` stores the times, the truncated sample bounds, and
re-submits the unchanged current position to the inner source: the
re-validation step never alters the value it forwards. -/
theorem setLoopTimes_eq {σ : Type} (src : InnerSource σ) (st : LoopState σ)
    (s e : ℚ) :
    setLoopTimes src st s e
      = { st with
          loopStartTime := s
          loopEndTime := e
          loopStartSample := truncToInt (s * st.currentSampleRate)
          loopEndSample := truncToInt (e * st.currentSampleRate)
          input := src.setPos st.input (src.getPos st.input) } := by
  unfold setLoopTimes setNextReadPosition
  dsimp only
  split_ifs with hg h1 h2
  · obtain ⟨-, ha, hb⟩ := hg
    omega
  · obtain ⟨-, ha, hb⟩ := hg
    omega
  · rfl
  · rfl

/-- The inner cursor written by `setNextReadPosition` on the ramp source,
when the current cursor is strictly inside the region and the requested
position is above the loop end. -/
theorem setNextReadPosition_above (st : LoopState Int) (p : Int)
    (hloop : st.isLoopingBetweenTimes = true)
    (hin1 : st.loopStartSample < st.input) (hin2 : st.input < st.loopEndSample)
    (hp : st.loopEndSample < p) :
    (setNextReadPosition rampSource st p).input
      = st.loopStartSample
        + (p - st.loopEndSample).tmod (st.loopEndSample - st.loopStartSample) := by
  unfold setNextReadPosition
  dsimp only [rampSource]
  rw [if_pos ⟨hloop, hin1, hin2⟩, if_pos hp]

/-- As above, for a requested position below the loop start. -/
theorem setNextReadPosition_below (st : LoopState Int) (p : Int)
    (hloop : st.isLoopingBetweenTimes = true)
    (hin1 : st.loopStartSample < st.input) (hin2 : st.input < st.loopEndSample)
    (hp : p < st.loopStartSample) :
    (setNextReadPosition rampSource st p).input
      = st.loopEndSample
        - (st.loopStartSample - p).tmod (st.loopEndSample - st.loopStartSample) := by
  unfold setNextReadPosition
  dsimp only [rampSource]
  rw [if_pos ⟨hloop, hin1, hin2⟩, if_neg (by omega), if_pos hp]

/-- As above: a requested position inside `[loopStartSample, loopEndSample]`
passes through unchanged. -/
theorem setNextReadPosition_inside (st : LoopState Int) (p : Int)
    (hp1 : st.loopStartSample ≤ p) (hp2 : p ≤ st.loopEndSample) :
    (setNextReadPosition rampSource st p).input = p := by
  unfold setNextReadPosition
  dsimp only [rampSource]
  split_ifs with hg h1 h2
  · omega
  · omega
  · rfl
  · rfl

/-- As above: when the current cursor is not strictly inside the region, any
requested position passes through unchanged. -/
theorem setNextReadPosition_outside (st : LoopState Int) (p : Int)
    (hout : ¬ (st.loopStartSample < st.input ∧ st.input < st.loopEndSample)) :
    (setNextReadPosition rampSource st p).input = p := by
  unfold setNextReadPosition
  dsimp only [rampSource]
  rw [if_neg (by intro hg; exact hout ⟨hg.2.1, hg.2.2⟩)]

/-- The scratch-buffer length after one `prepareToPlay` call is the maximum
of the old length and the requested block size. -/
theorem prepareToPlay_len {σ : Type} (st : LoopState σ) (n : Int) (r : ℚ) :
    (prepareToPlay st n r).tempBuffer.length = max st.tempBuffer.length n.toNat := by
  unfold prepareToPlay
  dsimp only
  split_ifs with h
  · simp only [List.length_replicate]
    omega
  · show st.tempBuffer.length = _
    omega

/-- The scratch-buffer length after a sequence of `prepareToPlay` calls is
the running maximum of the initial length and all requested sizes. -/
theorem prepareMany_len {σ : Type} (calls : List (Int × ℚ)) :
    ∀ st : LoopState σ,
      (prepareMany calls st).tempBuffer.length
        = calls.foldl (fun m c => max m c.1.toNat) st.tempBuffer.length := by
  induction calls with
  | nil => intro st; rfl
  | cons c rest ih =>
    intro st
    show (prepareMany rest (prepareToPlay st c.1 c.2)).tempBuffer.length = _
    rw [ih, prepareToPlay_len]
    rfl

end LoopingAudioSource

namespace LoopingAudioSource

/-- C7: whenever looping is disabled, `getNextAudioBlock` with any positive
sample count produces output identical to calling the inner source directly
with the same arguments, regardless of any loop region that has been set,
and the only state change is the inner source's own advance: the wrapper
never repositions the inner cursor itself. -/
theorem C7_pass_through {σ : Type} (src : InnerSource σ) (st : LoopState σ) (n : Int)
    (hloop : st.isLoopingBetweenTimes = false) (hn : 0 < n) :
    getNextAudioBlock src st n
      = ((src.read st.input n).1, { st with input := (src.read st.input n).2 }) := by
  unfold getNextAudioBlock
  rw [if_pos hn, hloop, if_neg (by simp)]

/-- C7 witness: the pass-through theorem evaluated on the ramp source at a
concrete non-looping state with a region installed. -/
theorem C7_pass_through_check :
    getNextAudioBlock rampSource c7State 4
      = ((rampSource.read c7State.input 4).1,
         { c7State with input := (rampSource.read c7State.input 4).2 }) :=
  C7_pass_through rampSource c7State 4 (by decide) (by decide)

/-- C9: the scratch buffer's capacity never decreases: a `prepareToPlay`
call enlarges the buffer only when the expected block size exceeds the
current capacity and otherwise leaves it unchanged, and after any sequence
of calls the capacity is the maximum of the initial capacity and the
largest size ever requested. -/
theorem C9_scratch_capacity {σ : Type} (st : LoopState σ) (n : Int) (r : ℚ)
    (calls : List (Int × ℚ)) :
    ((st.tempBuffer.length : Int) < n →
        (prepareToPlay st n r).tempBuffer.length = n.toNat) ∧
    (¬ (st.tempBuffer.length : Int) < n →
        (prepareToPlay st n r).tempBuffer = st.tempBuffer) ∧
    st.tempBuffer.length ≤ (prepareToPlay st n r).tempBuffer.length ∧
    (prepareMany calls st).tempBuffer.length
      = calls.foldl (fun m c => max m c.1.toNat) st.tempBuffer.length := by
  refine ⟨?_, ?_, ?_, prepareMany_len calls st⟩
  · intro h
    unfold prepareToPlay
    dsimp only
    rw [if_pos h]
    simp
  · intro h
    unfold prepareToPlay
    dsimp only
    rw [if_neg h]
  · rw [prepareToPlay_len]
    omega

/-- C9 witness: the capacity theorem evaluated at a concrete state of
capacity 4, one call of size 10, and a call sequence with maximum size 20. -/
theorem C9_scratch_capacity_check :
    (((c3State.tempBuffer.length : Int) < 10 →
        (prepareToPlay c3State 10 2).tempBuffer.length = (10 : Int).toNat) ∧
      (¬ (c3State.tempBuffer.length : Int) < 10 →
        (prepareToPlay c3State 10 2).tempBuffer = c3State.tempBuffer) ∧
      c3State.tempBuffer.length ≤ (prepareToPlay c3State 10 2).tempBuffer.length ∧
      (prepareMany ([(6, 1), (20, 1), (5, 1)] : List (Int × ℚ)) c3State).tempBuffer.length
        = ([(6, 1), (20, 1), (5, 1)] : List (Int × ℚ)).foldl
            (fun m c => max m c.1.toNat) c3State.tempBuffer.length) :=
  C9_scratch_capacity c3State 10 2 ([(6, 1), (20, 1), (5, 1)] : List (Int × ℚ))

/-- C2: with looping enabled, loop region seconds 10–20 at rate 44100
(samples 441000–882000, as installed by `setLoopTimes`), and the inner
cursor at 881500, a 1000-sample request writes samples 881500–881999 into
the first 500 slots and 441000–441499 into the next 500, leaving the inner
cursor at 441500. -/
theorem C2_wrap_scenario :
    setLoopTimes rampSource c2Base 10 20 = c2State ∧
    (getNextAudioBlock rampSource c2State 1000).1
        = (List.range 500).map (fun (i : Nat) => (881500 : Int) + (i : Int))
          ++ (List.range 500).map (fun (i : Nat) => (441000 : Int) + (i : Int)) ∧
    (getNextAudioBlock rampSource c2State 1000).2.input = 441500 := by
  refine ⟨?_, by decide, by decide⟩
  norm_num [setLoopTimes, setNextReadPosition, truncToInt_eq, c2Base, c2State, rampSource]

/-- C3 counterexample: with rate 1 and old region samples `[0, 10)`, the
cursor 8 is inside the old region; after `setLoopTimes 0 5` (a valid call,
`endTime > startTime`) the bounds are `[0, 5)` but the cursor is still 8 —
the re-validation does not bring playback inside the new region. -/
theorem C3_counterexample :
    ((0:ℚ) < 5) ∧
    (c3State.loopStartSample ≤ c3State.input ∧ c3State.input < c3State.loopEndSample) ∧
    (setLoopTimes rampSource c3State 0 5).loopStartSample = 0 ∧
    (setLoopTimes rampSource c3State 0 5).loopEndSample = 5 ∧
    (setLoopTimes rampSource c3State 0 5).input = 8 ∧
    ¬ ((setLoopTimes rampSource c3State 0 5).input
        < (setLoopTimes rampSource c3State 0 5).loopEndSample) := by
  norm_num [setLoopTimes, setNextReadPosition, truncToInt_eq, c3State, rampSource]

/-- C3 (amended): after `setLoopTimes startTime endTime`, `loopStartSample`
and `loopEndSample` equal the truncations of `startTime * sampleRate` and
`endTime * sampleRate`, and the current read position is re-submitted to
the inner source unchanged: the re-validation never rewrites the cursor, so
a cursor inside the old region but outside the new one stays outside. -/
theorem C3_set_loop_region {σ : Type} (src : InnerSource σ) (st : LoopState σ)
    (s e : ℚ) :
    (setLoopTimes src st s e).loopStartSample = truncToInt (s * st.currentSampleRate) ∧
    (setLoopTimes src st s e).loopEndSample = truncToInt (e * st.currentSampleRate) ∧
    (setLoopTimes src st s e).input = src.setPos st.input (src.getPos st.input) := by
  rw [setLoopTimes_eq]
  exact ⟨rfl, rfl, rfl⟩

/-- C4 counterexample: `setLoopTimes 2 1` (endTime ≤ startTime) at rate 1
stores `loopEndSample = 1 ≤ 2 = loopStartSample`: the degenerate region is
installed, neither rejected nor clamped. -/
theorem C4_counterexample :
    ((1:ℚ) ≤ 2) ∧
    (setLoopTimes rampSource c3State 2 1).loopStartSample = 2 ∧
    (setLoopTimes rampSource c3State 2 1).loopEndSample = 1 ∧
    (setLoopTimes rampSource c3State 2 1).loopEndSample
      ≤ (setLoopTimes rampSource c3State 2 1).loopStartSample := by
  norm_num [setLoopTimes, setNextReadPosition, truncToInt_eq, c3State, rampSource]

/-- C4 (amended): `setLoopTimes` performs no rejection or clamping (its
`jassert` is debug-only): every call with `endTime ≤ startTime` at a
nonnegative sample rate stores a region with
`loopEndSample ≤ loopStartSample`, which the produce path can observe. -/
theorem C4_no_clamping {σ : Type} (src : InnerSource σ) (st : LoopState σ)
    (s e : ℚ) (hse : e ≤ s) (hrate : 0 ≤ st.currentSampleRate) :
    (setLoopTimes src st s e).loopEndSample
      ≤ (setLoopTimes src st s e).loopStartSample := by
  rw [setLoopTimes_eq]
  exact truncToInt_mono (mul_le_mul_of_nonneg_right hse hrate)

/-- C4 witness: the no-clamping theorem evaluated at the concrete
degenerate call of the counterexample. -/
theorem C4_no_clamping_check :
    (setLoopTimes rampSource c3State 2 1).loopEndSample
      ≤ (setLoopTimes rampSource c3State 2 1).loopStartSample :=
  C4_no_clamping rampSource c3State 2 1 (by norm_num) (by norm_num [c3State])

/-- C8: calling `setLoopTimes` twice in a row with the same times leaves
the component in the state one call produces — same times, same sample
bounds, same inner cursor — for any inner source for which re-submitting
its own current position is a no-op. -/
theorem C8_set_loop_region_idem {σ : Type} (src : InnerSource σ) (st : LoopState σ)
    (s e : ℚ) (hlaw : ∀ i : σ, src.setPos i (src.getPos i) = i) :
    setLoopTimes src (setLoopTimes src st s e) s e = setLoopTimes src st s e := by
  simp [setLoopTimes_eq, hlaw]

/-- C8 witness: idempotence evaluated on the ramp source at a concrete
state and times. -/
theorem C8_set_loop_region_idem_check :
    setLoopTimes rampSource (setLoopTimes rampSource c3State 1 2) 1 2
      = setLoopTimes rampSource c3State 1 2 :=
  C8_set_loop_region_idem rampSource c3State 1 2 (fun _ => rfl)

end LoopingAudioSource

namespace LoopingAudioSource

/-- C1 (amended): for every loop region with sample bounds
`0 ≤ loopStartSample < loopEndSample`, a ramp inner source whose cursor
starts inside the region, and every sequence of positive block sizes each
at most the loop length, the concatenation of successive
`getNextAudioBlock` outputs never skips or duplicates a sample value,
except at the loop seam where the value jumps directly from
`loopEndSample - 1` to `loopStartSample` with no gap. -/
theorem C1_gapless_loop (st : LoopState Int) (ns : List Int)
    (hloop : st.isLoopingBetweenTimes = true)
    (h0 : 0 ≤ st.loopStartSample)
    (hlt : st.loopStartSample < st.loopEndSample)
    (hc1 : st.loopStartSample ≤ st.input)
    (hc2 : st.input < st.loopEndSample)
    (hns : ∀ n ∈ ns, 0 < n ∧ n ≤ st.loopEndSample - st.loopStartSample) :
    List.Chain' (seamAdj st.loopStartSample st.loopEndSample)
      (produceMany rampSource ns st).1 := by
  rw [produceMany_ramp_spec ns st hloop h0 hlt hc1 hc2 hns]
  exact idealBlock_chain _ _ _ hlt _

/-- C1 witness: the gapless theorem evaluated at region `[2, 6)`, cursor 3
and blocks `[2, 3, 4]` (the output wraps twice). -/
theorem C1_gapless_loop_check :
    List.Chain' (seamAdj 2 6) (produceMany rampSource [2, 3, 4] (mkRampLoopState 2 6 3 8)).1 :=
  C1_gapless_loop (mkRampLoopState 2 6 3 8) [2, 3, 4] (by decide) (by decide) (by decide)
    (by decide) (by decide) (by decide)

/-- C1 counterexample: a valid region `[2, 4)` (loop length 2), cursor 3
inside it, and one positive block of size 3, exceeding the loop length: the
output is `[3, 4, 5]`, running straight past the seam — sample 3
(`loopEndSample - 1`) is followed by 4, not by `loopStartSample` — so the
claim as stated fails for block sizes beyond the loop length. -/
theorem C1_counterexample :
    ((0:Int) ≤ 2 ∧ (2:Int) < 4 ∧ (2:Int) ≤ 3 ∧ (3:Int) < 4 ∧ (0:Int) < 3) ∧
    (produceMany rampSource [3] (mkRampLoopState 2 4 3 8)).1 = [3, 4, 5] ∧
    ¬ List.Chain' (seamAdj 2 4) (produceMany rampSource [3] (mkRampLoopState 2 4 3 8)).1 := by
  refine ⟨by decide, by decide, ?_⟩
  rw [show (produceMany rampSource [3] (mkRampLoopState 2 4 3 8)).1 = [3, 4, 5] from by decide]
  intro h
  rw [List.chain'_cons] at h
  obtain ⟨h1, -⟩ := h
  unfold seamAdj at h1
  omega

/-- C5 (amended): with looping enabled and the cursor strictly inside the
region: a `newPosition` above `loopEndSample` is wrapped into
`[loopStartSample, loopEndSample)`; a `newPosition` below `loopStartSample`
is wrapped into `(loopStartSample, loopEndSample]` — it lands exactly on
`loopEndSample` when the distance is a multiple of the loop length, so not
always inside the claimed half-open region; a `newPosition` already in
`[loopStartSample, loopEndSample]` passes through unchanged.  When the
cursor is not strictly inside, every `newPosition` passes through
unmodified. -/
theorem C5_seek_wrapping (st : LoopState Int) (p : Int)
    (hloop : st.isLoopingBetweenTimes = true) :
    ((st.loopStartSample < st.input ∧ st.input < st.loopEndSample) →
      (st.loopEndSample < p →
          st.loopStartSample ≤ (setNextReadPosition rampSource st p).input ∧
          (setNextReadPosition rampSource st p).input < st.loopEndSample) ∧
      (p < st.loopStartSample →
          st.loopStartSample < (setNextReadPosition rampSource st p).input ∧
          (setNextReadPosition rampSource st p).input ≤ st.loopEndSample) ∧
      (st.loopStartSample ≤ p → p ≤ st.loopEndSample →
          (setNextReadPosition rampSource st p).input = p)) ∧
    (¬ (st.loopStartSample < st.input ∧ st.input < st.loopEndSample) →
      (setNextReadPosition rampSource st p).input = p) := by
  constructor
  · rintro ⟨hin1, hin2⟩
    have hlen : 0 < st.loopEndSample - st.loopStartSample := by omega
    refine ⟨?_, ?_, ?_⟩
    · intro hp
      rw [setNextReadPosition_above st p hloop hin1 hin2 hp]
      have := tmod_bounds (x := p - st.loopEndSample)
        (m := st.loopEndSample - st.loopStartSample) (by omega) hlen
      omega
    · intro hp
      rw [setNextReadPosition_below st p hloop hin1 hin2 hp]
      have := tmod_bounds (x := st.loopStartSample - p)
        (m := st.loopEndSample - st.loopStartSample) (by omega) hlen
      omega
    · intro hp1 hp2
      exact setNextReadPosition_inside st p hp1 hp2
  · exact setNextReadPosition_outside st p

/-- C5 witness: the wrapping theorem evaluated at region `[10, 20)`, cursor
15, requested position 25. -/
theorem C5_seek_wrapping_check :
    ((c5State.loopStartSample < c5State.input ∧ c5State.input < c5State.loopEndSample) →
      (c5State.loopEndSample < 25 →
          c5State.loopStartSample ≤ (setNextReadPosition rampSource c5State 25).input ∧
          (setNextReadPosition rampSource c5State 25).input < c5State.loopEndSample) ∧
      ((25:Int) < c5State.loopStartSample →
          c5State.loopStartSample < (setNextReadPosition rampSource c5State 25).input ∧
          (setNextReadPosition rampSource c5State 25).input ≤ c5State.loopEndSample) ∧
      (c5State.loopStartSample ≤ 25 → (25:Int) ≤ c5State.loopEndSample →
          (setNextReadPosition rampSource c5State 25).input = 25)) ∧
    (¬ (c5State.loopStartSample < c5State.input ∧ c5State.input < c5State.loopEndSample) →
      (setNextReadPosition rampSource c5State 25).input = 25) :=
  C5_seek_wrapping c5State 25 (by decide)

/-- C5 counterexample: region `[10, 20)`, cursor 15 strictly inside,
`setNextReadPosition 0`: the forwarded value is
`20 - ((10 - 0) % 10) = 20 = loopEndSample`, outside the claimed half-open
range `[loopStartSample, loopEndSample)`. -/
theorem C5_counterexample :
    (c5State.loopStartSample < c5State.input ∧ c5State.input < c5State.loopEndSample) ∧
    (setNextReadPosition rampSource c5State 0).input = 20 ∧
    ¬ ((setNextReadPosition rampSource c5State 0).input < c5State.loopEndSample) := by
  decide

/-- C6: with looping enabled and the cursor inside a valid region, a block
whose size exactly equals `loopEndSample - cursor` is classified as
boundary-crossing — the `newEnd > newStart` comparison evaluates false —
and the split is still performed correctly: the output is exactly the
samples from the cursor up to `loopEndSample`, and the inner cursor ends at
`loopStartSample`. -/
theorem C6_boundary_touch (st : LoopState Int) (n : Int)
    (hloop : st.isLoopingBetweenTimes = true)
    (h0 : 0 ≤ st.loopStartSample)
    (hlt : st.loopStartSample < st.loopEndSample)
    (hc1 : st.loopStartSample ≤ st.input)
    (hc2 : st.input < st.loopEndSample)
    (hn : n = st.loopEndSample - st.input) :
    ¬ (st.input < loopNewEnd st.loopStartSample st.loopEndSample st.input n) ∧
    (getNextAudioBlock rampSource st n).1
      = (List.range n.toNat).map (fun (i : Nat) => st.input + (i : Int)) ∧
    (getNextAudioBlock rampSource st n).2.input = st.loopStartSample := by
  have hn' : 0 < n := by omega
  have hnle : n ≤ st.loopEndSample - st.loopStartSample := by omega
  obtain ⟨ho, hcur, -, -, -⟩ :=
    getNextAudioBlock_ramp_spec st n hloop h0 hlt hc1 hc2 hn' hnle
  have hne : loopNewEnd st.loopStartSample st.loopEndSample st.input n
      = st.loopStartSample := by
    unfold loopNewEnd
    rw [show st.input + n = st.loopEndSample from by omega,
      Int.tmod_eq_emod (by omega) (by omega), Int.emod_self]
    ring
  refine ⟨by rw [hne]; omega, ?_, ?_⟩
  · rw [ho, idealBlock_eq_ramp _ _ _ _ hc1 (by omega)]
  · rw [hcur]
    unfold wrapPos
    rw [show st.input + n - st.loopStartSample
        = st.loopEndSample - st.loopStartSample from by omega, Int.emod_self]
    ring

/-- C6 witness: the boundary-touch theorem evaluated at region `[2, 6)`,
cursor 3, block size 3 = loopEndSample - cursor. -/
theorem C6_boundary_touch_check :
    ¬ ((3:Int) < loopNewEnd 2 6 3 3) ∧
    (getNextAudioBlock rampSource (mkRampLoopState 2 6 3 8) 3).1
      = (List.range (3:Int).toNat).map (fun (i : Nat) => (3:Int) + (i : Int)) ∧
    (getNextAudioBlock rampSource (mkRampLoopState 2 6 3 8) 3).2.input = 2 :=
  C6_boundary_touch (mkRampLoopState 2 6 3 8) 3 (by decide) (by decide) (by decide)
    (by decide) (by decide) (by decide)

/-- C10: in the boundary-crossing branch, for a valid region, a cursor
inside it and a positive block of at most the loop length, the two sub-read
lengths `numEndSamps` and `numStartSamps` are both nonnegative and sum
exactly to the request — so neither inner read is asked for a negative
count and the output fills exactly `numSamples` slots — and the inner
cursor afterwards equals `loopStartSample + numStartSamps`. -/
theorem C10_split_accounting (st : LoopState Int) (n : Int)
    (hloop : st.isLoopingBetweenTimes = true)
    (h0 : 0 ≤ st.loopStartSample)
    (hlt : st.loopStartSample < st.loopEndSample)
    (hc1 : st.loopStartSample ≤ st.input)
    (hc2 : st.input < st.loopEndSample)
    (hn : 0 < n)
    (hnle : n ≤ st.loopEndSample - st.loopStartSample)
    (hbr : ¬ (st.input < loopNewEnd st.loopStartSample st.loopEndSample st.input n)) :
    0 ≤ numEndSamps st.loopEndSample st.input ∧
    0 ≤ numStartSamps st.loopStartSample st.loopEndSample st.input n ∧
    numEndSamps st.loopEndSample st.input
      + numStartSamps st.loopStartSample st.loopEndSample st.input n = n ∧
    (getNextAudioBlock rampSource st n).1.length = n.toNat ∧
    (getNextAudioBlock rampSource st n).2.input
      = st.loopStartSample + numStartSamps st.loopStartSample st.loopEndSample st.input n := by
  have htm : (st.input + n).tmod st.loopEndSample = (st.input + n) % st.loopEndSample :=
    Int.tmod_eq_emod (by omega) (by omega)
  have hcross : ¬ (st.input + n < st.loopEndSample) := by
    intro hlt2
    apply hbr
    unfold loopNewEnd
    rw [htm, Int.emod_eq_of_lt (by omega) hlt2]
    omega
  have hmod : (st.input + n) % st.loopEndSample = st.input + n - st.loopEndSample := by
    rw [← Int.emod_sub_cancel]
    exact Int.emod_eq_of_lt (by omega) (by omega)
  have hNS : numStartSamps st.loopStartSample st.loopEndSample st.input n
      = st.input + n - st.loopEndSample := by
    unfold numStartSamps loopNewEnd
    rw [htm, hmod]
    ring
  have hNE : numEndSamps st.loopEndSample st.input = st.loopEndSample - st.input := rfl
  obtain ⟨ho, hcur, -, -, -⟩ :=
    getNextAudioBlock_ramp_spec st n hloop h0 hlt hc1 hc2 hn hnle
  have hwrap : wrapPos st.loopStartSample st.loopEndSample (st.input + n)
      = st.loopStartSample + (st.input + n - st.loopEndSample) := by
    unfold wrapPos
    rw [← Int.emod_sub_cancel,
      show st.input + n - st.loopStartSample
          - (st.loopEndSample - st.loopStartSample) = st.input + n - st.loopEndSample
        from by ring,
      Int.emod_eq_of_lt (by omega) (by omega)]
  refine ⟨by rw [hNE]; omega, by rw [hNS]; omega, by rw [hNE, hNS]; omega, ?_, ?_⟩
  · rw [ho]
    simp [idealBlock]
  · rw [hcur, hwrap, hNS]

/-- C10 witness: the split-accounting theorem at region `[2, 6)`, cursor 4,
block size 3 (the request crosses the seam: 4 + 3 > 6). -/
theorem C10_split_accounting_check :
    0 ≤ numEndSamps 6 4 ∧
    0 ≤ numStartSamps 2 6 4 3 ∧
    numEndSamps 6 4 + numStartSamps 2 6 4 3 = 3 ∧
    (getNextAudioBlock rampSource (mkRampLoopState 2 6 4 8) 3).1.length = (3:Int).toNat ∧
    (getNextAudioBlock rampSource (mkRampLoopState 2 6 4 8) 3).2.input
      = 2 + numStartSamps 2 6 4 3 :=
  C10_split_accounting (mkRampLoopState 2 6 4 8) 3 (by decide) (by decide) (by decide)
    (by decide) (by decide) (by decide) (by decide) (by decide)

end LoopingAudioSource
